import Mathlib

/-!
Verification of the heatlab procedural image generators.

The repository has two scripts:

* `glowGen.py` — renders a radial glow sprite: a per-pixel Euclidean
  distance field from a centre point, a clipped linear falloff raised to a
  power, scaled by a peak opacity, quantised to 8 bits, then Gaussian
  blurred and saved as RGBA PNG.
* `iconGen.py` — renders a cubic-Bezier arc icon: the curve is sampled,
  stroked and capped at a supersampled resolution, downsampled, cleaned by
  a two-pass morphological max/min filter with threshold snapping
  (`clean_mask`), and composited as the alpha channel of a solid white
  canvas (`make_foreground_png_solid`).

Pure numeric code is embedded directly (float arithmetic over ℝ, uint8
buffers as ℕ-valued pixel grids with values kept in [0, 255] by the
clipping steps themselves).  PIL rank filters (`MaxFilter`/`MinFilter` of
size k) are window maxima/minima over the in-range pixels at Chebyshev
distance ≤ k/2, which is exactly PIL's edge-replicating `expand` followed
by a rank filter.
-/

namespace Heatlab

/-- Output canvas size: `OUT = 1024` in both scripts. -/
def OUT : ℕ := 1024

/-! ## Glow renderer (`glowGen.py`, `make_glow_png`) -/

/-- Per-pixel Euclidean distance from the centre `(cx, cy)`;
`dist = np.sqrt((xx - cx) ** 2 + (yy - cy) ** 2)` where `xx` is the column
index and `yy` the row index of the pixel. -/
noncomputable def glowDist (cx cy : ℝ) (x y : ℕ) : ℝ :=
  Real.sqrt (((x : ℝ) - cx) ^ 2 + ((y : ℝ) - cy) ^ 2)

/-- Normalised falloff `t = np.clip(1 - dist / float(radius), 0, 1)`. -/
noncomputable def glowT (radius d : ℝ) : ℝ :=
  min 1 (max 0 (1 - d / radius))

/-- Real-valued pre-quantisation alpha `alpha = (t ** power) * alpha0`. -/
noncomputable def glowAlphaReal (radius power alpha0 d : ℝ) : ℝ :=
  glowT radius d ^ power * alpha0

/-- Quantised pre-blur alpha written into the `uint8` buffer:
`np.clip(alpha, 0, 255).astype(np.uint8)` (truncation of a nonnegative
clipped value is `Nat.floor`). -/
noncomputable def glowAlphaPre (radius power alpha0 d : ℝ) : ℕ :=
  Nat.floor (min 255 (max 0 (glowAlphaReal radius power alpha0 d)))

/-- Pre-blur RGBA pixel of the glow image: `glow_rgba[..., :3] = 255` and
the alpha channel is `glowAlphaPre`. -/
structure RGBA where
  r : ℕ
  g : ℕ
  b : ℕ
  a : ℕ

/-- The pre-blur glow image as a map from pixel coordinates (column `x`,
row `y`) to RGBA values. -/
noncomputable def makeGlowImage (cx cy radius power alpha0 : ℝ) (x y : ℕ) : RGBA :=
  { r := 255, g := 255, b := 255
    a := glowAlphaPre radius power alpha0 (glowDist cx cy x y) }

theorem glowT_nonneg (radius d : ℝ) : 0 ≤ glowT radius d := by
  unfold glowT
  exact le_min (by norm_num) (le_max_left 0 _)

theorem glowT_le_one (radius d : ℝ) : glowT radius d ≤ 1 :=
  min_le_left 1 _

theorem glowT_anti (radius d1 d2 : ℝ) (hr : 0 < radius) (h12 : d1 ≤ d2) :
    glowT radius d2 ≤ glowT radius d1 := by
  unfold glowT
  have hdiv : d1 / radius ≤ d2 / radius := by gcongr
  exact min_le_min le_rfl (max_le_max le_rfl (by linarith))

theorem glowAlphaPre_anti (radius power alpha0 d1 d2 : ℝ)
    (hr : 0 < radius) (hp : 0 ≤ power) (ha : 0 ≤ alpha0) (h12 : d1 ≤ d2) :
    glowAlphaPre radius power alpha0 d2 ≤ glowAlphaPre radius power alpha0 d1 := by
  unfold glowAlphaPre
  apply Nat.floor_mono
  apply min_le_min le_rfl
  apply max_le_max le_rfl
  unfold glowAlphaReal
  have hpow : glowT radius d2 ^ power ≤ glowT radius d1 ^ power :=
    Real.rpow_le_rpow (glowT_nonneg radius d2) (glowT_anti radius d1 d2 hr h12) hp
  exact mul_le_mul_of_nonneg_right hpow ha

theorem glowAlphaPre_of_radius_le (radius power alpha0 d : ℝ)
    (hr : 0 < radius) (hp : power ≠ 0) (hd : radius ≤ d) :
    glowAlphaPre radius power alpha0 d = 0 := by
  have ht : glowT radius d = 0 := by
    unfold glowT
    have h1 : (1 : ℝ) ≤ d / radius := (one_le_div hr).mpr hd
    have h2 : 1 - d / radius ≤ 0 := by linarith
    rw [max_eq_left h2, min_eq_right (by norm_num : (0:ℝ) ≤ 1)]
  unfold glowAlphaPre glowAlphaReal
  rw [ht, Real.zero_rpow hp, zero_mul]
  norm_num

/-- C1: for the glow renderer with `center=(512,410)`, `radius=280`,
`alpha0=185`, `power=1.9`, the pre-blur alpha at the pixel exactly at the
centre equals 185; the pre-blur alpha at every pixel at Euclidean distance
exactly 280 from the centre equals 0; and in general the real-valued
pre-blur alpha is `clamp(1 - dist/radius, 0, 1) ^ power * alpha0`. -/
theorem glow_center_boundary_formula :
    glowAlphaPre 280 1.9 185 (glowDist 512 410 512 410) = 185 ∧
    (∀ x y : ℕ, glowDist 512 410 x y = 280 →
      glowAlphaPre 280 1.9 185 (glowDist 512 410 x y) = 0) ∧
    (∀ radius power alpha0 d : ℝ,
      glowAlphaReal radius power alpha0 d =
        min 1 (max 0 (1 - d / radius)) ^ power * alpha0) := by
  refine ⟨?_, ?_, fun _ _ _ _ => rfl⟩
  · have h0 : glowDist 512 410 512 410 = 0 := by
      unfold glowDist
      norm_num
    rw [h0]
    unfold glowAlphaPre glowAlphaReal
    have ht : glowT 280 0 = 1 := by
      unfold glowT
      norm_num
    rw [ht, Real.one_rpow, one_mul]
    norm_num
  · intro x y hd
    rw [hd]
    exact glowAlphaPre_of_radius_le 280 1.9 185 280 (by norm_num) (by norm_num) le_rfl

/-- Witness for C1: the pixel `(792, 410)` lies at distance exactly 280
from the centre `(512, 410)` and its pre-blur alpha is 0. -/
theorem glow_center_boundary_formula_witness :
    glowAlphaPre 280 1.9 185 (glowDist 512 410 792 410) = 0 := by
  apply glow_center_boundary_formula.2.1 792 410
  unfold glowDist
  have h : (((792 : ℕ) : ℝ) - 512) ^ 2 + (((410 : ℕ) : ℝ) - 410) ^ 2 = 280 ^ 2 := by
    norm_num
  rw [h, Real.sqrt_sq (by norm_num : (0:ℝ) ≤ 280)]

/-- C2: pre-blur glow alpha is monotonically non-increasing in the
distance from the centre (for pixels with `d1 < d2 ≤ radius`), and is
exactly 0 at every pixel at distance ≥ radius. -/
theorem glow_alpha_monotone :
    (∀ x1 y1 x2 y2 : ℕ,
        glowDist 512 410 x1 y1 < glowDist 512 410 x2 y2 →
        glowDist 512 410 x2 y2 ≤ 280 →
        glowAlphaPre 280 1.9 185 (glowDist 512 410 x2 y2) ≤
          glowAlphaPre 280 1.9 185 (glowDist 512 410 x1 y1)) ∧
    (∀ x y : ℕ, 280 ≤ glowDist 512 410 x y →
        glowAlphaPre 280 1.9 185 (glowDist 512 410 x y) = 0) := by
  constructor
  · intro x1 y1 x2 y2 h12 _
    exact glowAlphaPre_anti 280 1.9 185 _ _ (by norm_num) (by norm_num) (by norm_num) h12.le
  · intro x y hd
    exact glowAlphaPre_of_radius_le 280 1.9 185 _ (by norm_num) (by norm_num) hd

/-- Witness for C2: the centre pixel `(512, 410)` is strictly closer than
the pixel `(512, 130)` at distance 280, and alpha is non-increasing
between them. -/
theorem glow_alpha_monotone_witness :
    glowAlphaPre 280 1.9 185 (glowDist 512 410 512 130) ≤
      glowAlphaPre 280 1.9 185 (glowDist 512 410 512 410) := by
  have h0 : glowDist 512 410 512 410 = 0 := by
    unfold glowDist
    norm_num
  have h280 : glowDist 512 410 512 130 = 280 := by
    unfold glowDist
    have h : (((512 : ℕ) : ℝ) - 512) ^ 2 + (((130 : ℕ) : ℝ) - 410) ^ 2 = 280 ^ 2 := by
      norm_num
    rw [h, Real.sqrt_sq (by norm_num : (0:ℝ) ≤ 280)]
  exact glow_alpha_monotone.1 512 410 512 130 (by rw [h0, h280]; norm_num)
    (by rw [h280])

/-! ## Icon renderer (`iconGen.py`) -/

/-- Cubic Bezier evaluation, exactly the `cubic` function of `iconGen.py`. -/
def cubic (p0 p1 p2 p3 : ℝ × ℝ) (t : ℝ) : ℝ × ℝ :=
  ((1 - t) ^ 3 * p0.1 + 3 * (1 - t) ^ 2 * t * p1.1 + 3 * (1 - t) * t ^ 2 * p2.1
      + t ^ 3 * p3.1,
   (1 - t) ^ 3 * p0.2 + 3 * (1 - t) ^ 2 * t * p1.2 + 3 * (1 - t) * t ^ 2 * p2.2
      + t ^ 3 * p3.2)

/-- The in-range pixels of an `h × w` grid at Chebyshev distance at most
`r` from pixel `p` (with `p` clamped into range first).  This is the
window seen by a PIL rank filter of size `2r+1`, whose `expand` pads the
border by replicating edge pixels. -/
def nbhd (h w r : ℕ) (p : ℕ × ℕ) : Finset (ℕ × ℕ) :=
  (Finset.range h ×ˢ Finset.range w).filter fun q =>
    q.1 ≤ min p.1 (h - 1) + r ∧ min p.1 (h - 1) ≤ q.1 + r ∧
    q.2 ≤ min p.2 (w - 1) + r ∧ min p.2 (w - 1) ≤ q.2 + r

/-- `ImageFilter.MaxFilter(size=2r+1)` on an `h × w` grid. -/
def maxFilter (h w r : ℕ) (a : ℕ × ℕ → ℕ) (p : ℕ × ℕ) : ℕ :=
  (nbhd h w r p).sup a

/-- `ImageFilter.MinFilter(size=2r+1)` on an `h × w` grid (the window is
nonempty at every pixel of a nonempty grid; the fallback 0 is never
reached there). -/
def minFilter (h w r : ℕ) (a : ℕ × ℕ → ℕ) (p : ℕ × ℕ) : ℕ :=
  if hne : (nbhd h w r p).Nonempty then (nbhd h w r p).inf' hne a else 0

/-- First-pass threshold snap of `clean_mask`:
`a[a < 8] = 0` followed by `a[a >= 200] = 255`, pointwise. -/
def snap1 (v : ℕ) : ℕ :=
  if (if v < 8 then 0 else v) ≥ 200 then 255 else if v < 8 then 0 else v

/-- Second-pass threshold snap of `clean_mask`:
`a2[a2 >= 200] = 255` followed by `a2[a2 < 8] = 0`, pointwise. -/
def snap2 (v : ℕ) : ℕ :=
  if (if v ≥ 200 then 255 else v) < 8 then 0 else if v ≥ 200 then 255 else v

/-- `clean_mask`: `MaxFilter(5)`, `MinFilter(5)`, first snap, then
`MaxFilter(3)`, `MinFilter(3)`, second snap (sizes 5 and 3 are radii 2
and 1). -/
def cleanMask (h w : ℕ) (m : ℕ × ℕ → ℕ) : ℕ × ℕ → ℕ :=
  fun p =>
    snap2 (minFilter h w 1 (maxFilter h w 1
      (fun q => snap1 (minFilter h w 2 (maxFilter h w 2 m) q))) p)

/-- `make_foreground_png_solid`: a solid white canvas
`Image.new("RGBA", (OUT, OUT), (255, 255, 255, 255))` whose alpha channel
is wholesale replaced (`fg.putalpha(mask)`) by the cleaned arc mask. -/
def makeForegroundPngSolid (h w : ℕ) (arcMask : ℕ × ℕ → ℕ) (p : ℕ × ℕ) : RGBA :=
  { r := 255, g := 255, b := 255, a := cleanMask h w arcMask p }

theorem mem_nbhd {h w r : ℕ} {p q : ℕ × ℕ} :
    q ∈ nbhd h w r p ↔
      q.1 < h ∧ q.2 < w ∧
      q.1 ≤ min p.1 (h - 1) + r ∧ min p.1 (h - 1) ≤ q.1 + r ∧
      q.2 ≤ min p.2 (w - 1) + r ∧ min p.2 (w - 1) ≤ q.2 + r := by
  unfold nbhd
  simp only [Finset.mem_filter, Finset.mem_product, Finset.mem_range]
  tauto

theorem mem_nbhd_inRange {h w r : ℕ} {p q : ℕ × ℕ} (hp1 : p.1 < h) (hp2 : p.2 < w) :
    q ∈ nbhd h w r p ↔
      q.1 < h ∧ q.2 < w ∧ q.1 ≤ p.1 + r ∧ p.1 ≤ q.1 + r ∧
      q.2 ≤ p.2 + r ∧ p.2 ≤ q.2 + r := by
  rw [mem_nbhd]
  omega

theorem self_mem_nbhd {h w r : ℕ} {p : ℕ × ℕ} (hp1 : p.1 < h) (hp2 : p.2 < w) :
    p ∈ nbhd h w r p := by
  rw [mem_nbhd]
  omega

theorem nbhd_nonempty {h w r : ℕ} {p : ℕ × ℕ} (hp1 : p.1 < h) (hp2 : p.2 < w) :
    (nbhd h w r p).Nonempty :=
  ⟨p, self_mem_nbhd hp1 hp2⟩

theorem nbhd_symm {h w r : ℕ} {p q : ℕ × ℕ} (hp1 : p.1 < h) (hp2 : p.2 < w)
    (hq1 : q.1 < h) (hq2 : q.2 < w) :
    q ∈ nbhd h w r p ↔ p ∈ nbhd h w r q := by
  rw [mem_nbhd_inRange hp1 hp2, mem_nbhd_inRange hq1 hq2]
  omega

/-- The radius-2 window is the radius-1 window of the radius-1 window:
the 5×5 square structuring element is the 3×3 one dilated by itself, and
clamped in-range windows compose accordingly. -/
theorem nbhd_two {h w : ℕ} {p q : ℕ × ℕ} (hp1 : p.1 < h) (hp2 : p.2 < w) :
    q ∈ nbhd h w 2 p ↔ ∃ e, e ∈ nbhd h w 1 p ∧ q ∈ nbhd h w 1 e := by
  constructor
  · intro hq
    rw [mem_nbhd_inRange hp1 hp2] at hq
    refine ⟨(min (p.1 + 1) (max q.1 (p.1 - 1)), min (p.2 + 1) (max q.2 (p.2 - 1))), ?_, ?_⟩
    · rw [mem_nbhd_inRange hp1 hp2]
      omega
    · rw [mem_nbhd]
      omega
  · rintro ⟨e, hep, hqe⟩
    rw [mem_nbhd_inRange hp1 hp2] at hep ⊢
    rw [mem_nbhd] at hqe
    omega

theorem minFilter_eq {h w r : ℕ} {a : ℕ × ℕ → ℕ} {p : ℕ × ℕ}
    (hp1 : p.1 < h) (hp2 : p.2 < w) :
    minFilter h w r a p = (nbhd h w r p).inf' (nbhd_nonempty hp1 hp2) a := by
  unfold minFilter
  rw [dif_pos (nbhd_nonempty hp1 hp2)]

/-- A pointwise monotone remap fixing 0 moves through a max filter. -/
theorem maxFilter_comp {h w r : ℕ} (g : ℕ → ℕ) (hg : Monotone g) (hg0 : g 0 = 0)
    (a : ℕ × ℕ → ℕ) (p : ℕ × ℕ) :
    maxFilter h w r (fun q => g (a q)) p = g (maxFilter h w r a p) := by
  unfold maxFilter
  exact (Finset.comp_sup_eq_sup_comp g (fun x y => hg.map_sup x y) (by simpa using hg0)).symm

/-- A pointwise monotone remap fixing 0 moves through a min filter. -/
theorem minFilter_comp {h w r : ℕ} (g : ℕ → ℕ) (hg : Monotone g) (hg0 : g 0 = 0)
    (a : ℕ × ℕ → ℕ) (p : ℕ × ℕ) :
    minFilter h w r (fun q => g (a q)) p = g (minFilter h w r a p) := by
  unfold minFilter
  by_cases hne : (nbhd h w r p).Nonempty
  · rw [dif_pos hne, dif_pos hne]
    exact (Finset.comp_inf'_eq_inf'_comp hne g (fun x y => hg.map_inf x y)).symm
  · rw [dif_neg hne, dif_neg hne, hg0]

theorem maxFilter_congr {h w r : ℕ} {a b : ℕ × ℕ → ℕ}
    (hab : ∀ q : ℕ × ℕ, q.1 < h → q.2 < w → a q = b q) (p : ℕ × ℕ) :
    maxFilter h w r a p = maxFilter h w r b p := by
  unfold maxFilter
  refine Finset.sup_congr rfl fun q hq => ?_
  have hq' := mem_nbhd.mp hq
  exact hab q hq'.1 hq'.2.1

theorem minFilter_congr {h w r : ℕ} {a b : ℕ × ℕ → ℕ}
    (hab : ∀ q : ℕ × ℕ, q.1 < h → q.2 < w → a q = b q) (p : ℕ × ℕ) :
    minFilter h w r a p = minFilter h w r b p := by
  unfold minFilter
  by_cases hne : (nbhd h w r p).Nonempty
  · rw [dif_pos hne, dif_pos hne]
    refine Finset.inf'_congr hne rfl fun q hq => ?_
    have hq' := mem_nbhd.mp hq
    exact hab q hq'.1 hq'.2.1
  · rw [dif_neg hne, dif_neg hne]

/-- Closing (min-of-max) is extensive at in-range pixels. -/
theorem le_close {h w r : ℕ} (a : ℕ × ℕ → ℕ) {p : ℕ × ℕ}
    (hp1 : p.1 < h) (hp2 : p.2 < w) :
    a p ≤ minFilter h w r (maxFilter h w r a) p := by
  rw [minFilter_eq hp1 hp2]
  refine Finset.le_inf' _ _ fun q hq => ?_
  have hq' := mem_nbhd.mp hq
  have hpq : p ∈ nbhd h w r q := (nbhd_symm hp1 hp2 hq'.1 hq'.2.1).mp hq
  exact Finset.le_sup hpq

/-- Opening (max-of-min) is anti-extensive at in-range pixels. -/
theorem open_le {h w r : ℕ} (a : ℕ × ℕ → ℕ) {p : ℕ × ℕ}
    (hp1 : p.1 < h) (hp2 : p.2 < w) :
    maxFilter h w r (minFilter h w r a) p ≤ a p := by
  refine Finset.sup_le fun q hq => ?_
  have hq' := mem_nbhd.mp hq
  rw [minFilter_eq hq'.1 hq'.2.1]
  have hpq : p ∈ nbhd h w r q := (nbhd_symm hp1 hp2 hq'.1 hq'.2.1).mp hq
  exact Finset.inf'_le _ hpq

/-- Adjunction identity `dilate ∘ erode ∘ dilate = dilate`. -/
theorem dilate_erode_dilate {h w r : ℕ} (a : ℕ × ℕ → ℕ) {p : ℕ × ℕ}
    (hp1 : p.1 < h) (hp2 : p.2 < w) :
    maxFilter h w r (minFilter h w r (maxFilter h w r a)) p = maxFilter h w r a p := by
  refine le_antisymm (open_le (maxFilter h w r a) hp1 hp2) ?_
  refine Finset.sup_mono_fun fun q hq => ?_
  have hq' := mem_nbhd.mp hq
  exact le_close a hq'.1 hq'.2.1

/-- Adjunction identity `erode ∘ dilate ∘ erode = erode`. -/
theorem erode_dilate_erode {h w r : ℕ} (a : ℕ × ℕ → ℕ) {p : ℕ × ℕ}
    (hp1 : p.1 < h) (hp2 : p.2 < w) :
    minFilter h w r (maxFilter h w r (minFilter h w r a)) p = minFilter h w r a p := by
  refine le_antisymm ?_ (le_close (minFilter h w r a) hp1 hp2)
  rw [minFilter_eq hp1 hp2, minFilter_eq hp1 hp2]
  refine Finset.le_inf' _ _ fun q hq => ?_
  have hq' := mem_nbhd.mp hq
  exact le_trans (Finset.inf'_le _ hq) (open_le a hq'.1 hq'.2.1)

/-- The 5×5 dilation is the 3×3 dilation applied twice. -/
theorem maxFilter_two {h w : ℕ} (a : ℕ × ℕ → ℕ) {p : ℕ × ℕ}
    (hp1 : p.1 < h) (hp2 : p.2 < w) :
    maxFilter h w 2 a p = maxFilter h w 1 (maxFilter h w 1 a) p := by
  unfold maxFilter
  refine le_antisymm (Finset.sup_le fun q hq => ?_) (Finset.sup_le fun e hep => ?_)
  · obtain ⟨e, hep, hqe⟩ := (nbhd_two hp1 hp2).mp hq
    exact Finset.le_sup_of_le hep (Finset.le_sup hqe)
  · refine Finset.sup_le fun q hqe => ?_
    exact Finset.le_sup ((nbhd_two hp1 hp2).mpr ⟨e, hep, hqe⟩)

/-- The 5×5 erosion is the 3×3 erosion applied twice. -/
theorem minFilter_two {h w : ℕ} (a : ℕ × ℕ → ℕ) {p : ℕ × ℕ}
    (hp1 : p.1 < h) (hp2 : p.2 < w) :
    minFilter h w 2 a p = minFilter h w 1 (minFilter h w 1 a) p := by
  rw [minFilter_eq hp1 hp2, minFilter_eq hp1 hp2]
  refine le_antisymm (Finset.le_inf' _ _ fun e hep => ?_) (Finset.le_inf' _ _ fun q hq => ?_)
  · have he' := mem_nbhd.mp hep
    rw [minFilter_eq he'.1 he'.2.1]
    refine Finset.le_inf' _ _ fun q hqe => ?_
    exact Finset.inf'_le _ ((nbhd_two hp1 hp2).mpr ⟨e, hep, hqe⟩)
  · obtain ⟨e, hep, hqe⟩ := (nbhd_two hp1 hp2).mp hq
    have he' := mem_nbhd.mp hep
    refine le_trans (Finset.inf'_le _ hep) ?_
    rw [minFilter_eq he'.1 he'.2.1]
    exact Finset.inf'_le _ hqe

/-- Absorption: the 3×3 closing after the 5×5 closing is the identity on
the 5×5 closing's output (at in-range pixels). -/
theorem close3_close5 {h w : ℕ} (m : ℕ × ℕ → ℕ) {p : ℕ × ℕ}
    (hp1 : p.1 < h) (hp2 : p.2 < w) :
    minFilter h w 1 (maxFilter h w 1 (minFilter h w 2 (maxFilter h w 2 m))) p
      = minFilter h w 2 (maxFilter h w 2 m) p := by
  have hsplit : ∀ q : ℕ × ℕ, q.1 < h → q.2 < w →
      minFilter h w 2 (maxFilter h w 2 m) q
        = minFilter h w 1 (minFilter h w 1 (maxFilter h w 2 m)) q :=
    fun q hq1 hq2 => minFilter_two (maxFilter h w 2 m) hq1 hq2
  calc minFilter h w 1 (maxFilter h w 1 (minFilter h w 2 (maxFilter h w 2 m))) p
      = minFilter h w 1 (maxFilter h w 1
          (minFilter h w 1 (minFilter h w 1 (maxFilter h w 2 m)))) p :=
        minFilter_congr (fun q hq1 hq2 => maxFilter_congr hsplit q) p
    _ = minFilter h w 1 (minFilter h w 1 (maxFilter h w 2 m)) p :=
        erode_dilate_erode (minFilter h w 1 (maxFilter h w 2 m)) hp1 hp2
    _ = minFilter h w 2 (maxFilter h w 2 m) p := (hsplit p hp1 hp2).symm

/-- The 5×5 closing is idempotent (pointwise, everywhere). -/
theorem close5_idem {h w : ℕ} (m : ℕ × ℕ → ℕ) (p : ℕ × ℕ) :
    minFilter h w 2 (maxFilter h w 2
      (minFilter h w 2 (maxFilter h w 2 m))) p
      = minFilter h w 2 (maxFilter h w 2 m) p :=
  minFilter_congr (fun q hq1 hq2 => dilate_erode_dilate m hq1 hq2) p

theorem snap1_monotone : Monotone snap1 := by
  intro x y hxy
  unfold snap1
  split_ifs <;> omega

theorem snap2_monotone : Monotone snap2 := by
  intro x y hxy
  unfold snap2
  split_ifs <;> omega

theorem snap21_monotone : Monotone fun v => snap2 (snap1 v) :=
  snap2_monotone.comp snap1_monotone

theorem snap21_zero : snap2 (snap1 0) = 0 := rfl

theorem snap1_eq (v : ℕ) : snap1 v = if v < 8 then 0 else if 200 ≤ v then 255 else v := by
  unfold snap1
  split_ifs <;> omega

theorem snap2_eq (v : ℕ) : snap2 v = if v < 8 then 0 else if 200 ≤ v then 255 else v := by
  unfold snap2
  split_ifs <;> omega

/-- Both snaps compose to the flat three-band remap. -/
theorem snap21_flat (v : ℕ) :
    snap2 (snap1 v) = if v < 8 then 0 else if 200 ≤ v then 255 else v := by
  rw [snap1_eq, snap2_eq]
  split_ifs <;> omega

/-- The composite snap is idempotent pointwise. -/
theorem snap21_idem (v : ℕ) : snap2 (snap1 (snap2 (snap1 v))) = snap2 (snap1 v) := by
  rw [snap21_flat v, snap21_flat]
  split_ifs <;> omega

/-- The `clean_mask` pipeline commutes the two threshold snaps out of the
filters: `clean_mask = snap2 ∘ snap1 ∘ close3 ∘ close5` pointwise. -/
theorem cleanMask_pipeline (h w : ℕ) (m : ℕ × ℕ → ℕ) (p : ℕ × ℕ) :
    cleanMask h w m p =
      snap2 (snap1 (minFilter h w 1 (maxFilter h w 1
        (minFilter h w 2 (maxFilter h w 2 m))) p)) := by
  unfold cleanMask
  refine congrArg snap2 ?_
  have hmax : ∀ q : ℕ × ℕ,
      maxFilter h w 1 (fun e => snap1 (minFilter h w 2 (maxFilter h w 2 m) e)) q
        = snap1 (maxFilter h w 1 (minFilter h w 2 (maxFilter h w 2 m)) q) :=
    maxFilter_comp snap1 snap1_monotone rfl _
  calc minFilter h w 1
        (maxFilter h w 1 (fun e => snap1 (minFilter h w 2 (maxFilter h w 2 m) e))) p
      = minFilter h w 1
          (fun q => snap1 (maxFilter h w 1 (minFilter h w 2 (maxFilter h w 2 m)) q)) p :=
        minFilter_congr (fun q _ _ => hmax q) p
    _ = snap1 (minFilter h w 1 (maxFilter h w 1
          (minFilter h w 2 (maxFilter h w 2 m))) p) :=
        minFilter_comp snap1 snap1_monotone rfl _ p

/-- The composite snap commutes out of the whole filter chain. -/
theorem filters_comp_snap (h w : ℕ) (x : ℕ × ℕ → ℕ) (q : ℕ × ℕ) :
    minFilter h w 1 (maxFilter h w 1 (minFilter h w 2 (maxFilter h w 2
      (fun e => snap2 (snap1 (x e)))))) q
      = snap2 (snap1 (minFilter h w 1 (maxFilter h w 1
          (minFilter h w 2 (maxFilter h w 2 x))) q)) := by
  have h1 : ∀ e : ℕ × ℕ, maxFilter h w 2 (fun e' => snap2 (snap1 (x e'))) e
      = snap2 (snap1 (maxFilter h w 2 x e)) :=
    maxFilter_comp (fun v => snap2 (snap1 v)) snap21_monotone snap21_zero x
  have h2 : ∀ e : ℕ × ℕ, minFilter h w 2 (maxFilter h w 2 (fun e' => snap2 (snap1 (x e')))) e
      = snap2 (snap1 (minFilter h w 2 (maxFilter h w 2 x) e)) := by
    intro e
    calc minFilter h w 2 (maxFilter h w 2 (fun e' => snap2 (snap1 (x e')))) e
        = minFilter h w 2 (fun e' => snap2 (snap1 (maxFilter h w 2 x e'))) e :=
          minFilter_congr (fun q' _ _ => h1 q') e
      _ = snap2 (snap1 (minFilter h w 2 (maxFilter h w 2 x) e)) :=
          minFilter_comp (fun v => snap2 (snap1 v)) snap21_monotone snap21_zero _ e
  have h3 : ∀ e : ℕ × ℕ,
      maxFilter h w 1 (minFilter h w 2 (maxFilter h w 2 (fun e' => snap2 (snap1 (x e'))))) e
      = snap2 (snap1 (maxFilter h w 1 (minFilter h w 2 (maxFilter h w 2 x)) e)) := by
    intro e
    calc maxFilter h w 1 (minFilter h w 2 (maxFilter h w 2 (fun e' => snap2 (snap1 (x e'))))) e
        = maxFilter h w 1 (fun e' => snap2 (snap1 (minFilter h w 2 (maxFilter h w 2 x) e'))) e :=
          maxFilter_congr (fun q' _ _ => h2 q') e
      _ = snap2 (snap1 (maxFilter h w 1 (minFilter h w 2 (maxFilter h w 2 x)) e)) :=
          maxFilter_comp (fun v => snap2 (snap1 v)) snap21_monotone snap21_zero _ e
  calc minFilter h w 1 (maxFilter h w 1 (minFilter h w 2 (maxFilter h w 2
        (fun e => snap2 (snap1 (x e)))))) q
      = minFilter h w 1 (fun e => snap2 (snap1
          (maxFilter h w 1 (minFilter h w 2 (maxFilter h w 2 x)) e))) q :=
        minFilter_congr (fun q' _ _ => h3 q') q
    _ = snap2 (snap1 (minFilter h w 1 (maxFilter h w 1
          (minFilter h w 2 (maxFilter h w 2 x))) q)) :=
        minFilter_comp (fun v => snap2 (snap1 v)) snap21_monotone snap21_zero _ q

/-- The filter chain of `clean_mask` is idempotent at every pixel: the 3×3
closing is absorbed by the 5×5 closing, which is itself idempotent. -/
theorem filters_idem (h w : ℕ) (m : ℕ × ℕ → ℕ) (p : ℕ × ℕ) :
    minFilter h w 1 (maxFilter h w 1 (minFilter h w 2 (maxFilter h w 2
      (minFilter h w 1 (maxFilter h w 1 (minFilter h w 2 (maxFilter h w 2 m))))))) p
      = minFilter h w 1 (maxFilter h w 1 (minFilter h w 2 (maxFilter h w 2 m))) p := by
  have h5 : ∀ q : ℕ × ℕ,
      maxFilter h w 2 (minFilter h w 1 (maxFilter h w 1
        (minFilter h w 2 (maxFilter h w 2 m)))) q
      = maxFilter h w 2 (minFilter h w 2 (maxFilter h w 2 m)) q :=
    maxFilter_congr fun q hq1 hq2 => close3_close5 m hq1 hq2
  have h8 : ∀ q : ℕ × ℕ,
      minFilter h w 2 (maxFilter h w 2 (minFilter h w 1 (maxFilter h w 1
        (minFilter h w 2 (maxFilter h w 2 m))))) q
      = minFilter h w 2 (maxFilter h w 2 m) q :=
    fun q => (minFilter_congr (fun q' _ _ => h5 q') q).trans (close5_idem m q)
  have h9 : ∀ q : ℕ × ℕ,
      maxFilter h w 1 (minFilter h w 2 (maxFilter h w 2 (minFilter h w 1 (maxFilter h w 1
        (minFilter h w 2 (maxFilter h w 2 m)))))) q
      = maxFilter h w 1 (minFilter h w 2 (maxFilter h w 2 m)) q :=
    maxFilter_congr fun q _ _ => h8 q
  exact minFilter_congr (fun q _ _ => h9 q) p

/-- C4: the morphological cleanup is idempotent: for every mask image `m`
and every pixel of the image, `clean_mask (clean_mask m) = clean_mask m`. -/
theorem cleanMask_idempotent (h w : ℕ) (m : ℕ × ℕ → ℕ) (p : ℕ × ℕ)
    (hp1 : p.1 < h) (hp2 : p.2 < w) :
    cleanMask h w (cleanMask h w m) p = cleanMask h w m p := by
  have hfun : cleanMask h w m = fun q =>
      snap2 (snap1 (minFilter h w 1 (maxFilter h w 1
        (minFilter h w 2 (maxFilter h w 2 m))) q)) :=
    funext (cleanMask_pipeline h w m)
  rw [cleanMask_pipeline h w (cleanMask h w m) p, hfun,
    filters_comp_snap h w (minFilter h w 1 (maxFilter h w 1
      (minFilter h w 2 (maxFilter h w 2 m)))) p,
    snap21_idem, filters_idem h w m p]

/-- Witness for C4: idempotence of `clean_mask` instantiated on the 1×1
all-zero mask at its only pixel. -/
theorem cleanMask_idempotent_witness :
    cleanMask 1 1 (cleanMask 1 1 (fun _ => 0)) (0, 0)
      = cleanMask 1 1 (fun _ => 0) (0, 0) :=
  cleanMask_idempotent 1 1 (fun _ => 0) (0, 0) (by decide) (by decide)

theorem maxFilter_le_255 {h w r : ℕ} {a : ℕ × ℕ → ℕ} (ha : ∀ q, a q ≤ 255)
    (p : ℕ × ℕ) : maxFilter h w r a p ≤ 255 :=
  Finset.sup_le fun q _ => ha q

theorem minFilter_le_255 {h w r : ℕ} {a : ℕ × ℕ → ℕ} (ha : ∀ q, a q ≤ 255)
    (p : ℕ × ℕ) : minFilter h w r a p ≤ 255 := by
  unfold minFilter
  split
  · rename_i hne
    obtain ⟨q, hq⟩ := hne
    exact le_trans (Finset.inf'_le _ hq) (ha q)
  · omega

theorem snap1_le_255 (v : ℕ) : snap1 v ≤ 255 := by
  rw [snap1_eq]
  split_ifs <;> omega

theorem snap2_le_255 (v : ℕ) : snap2 v ≤ 255 := by
  rw [snap2_eq]
  split_ifs <;> omega

/-- C6: clamp invariant.  In the glow pipeline the normalised falloff `t`
lies in [0,1] and the quantised pre-blur alpha lies in [0,255] (the type
forbids negatives, the clip bounds it above); in the cleanup pipeline
every derivation stage of `clean_mask` maps [0,255]-valued buffers to
[0,255]-valued buffers, so no overflowed value is ever written. -/
theorem clamp_invariant :
    (∀ radius power alpha0 d : ℝ,
      0 ≤ glowT radius d ∧ glowT radius d ≤ 1 ∧
      glowAlphaPre radius power alpha0 d ≤ 255) ∧
    (∀ (h w : ℕ) (m : ℕ × ℕ → ℕ), (∀ q, m q ≤ 255) → ∀ p : ℕ × ℕ,
      maxFilter h w 2 m p ≤ 255 ∧
      minFilter h w 2 (maxFilter h w 2 m) p ≤ 255 ∧
      snap1 (minFilter h w 2 (maxFilter h w 2 m) p) ≤ 255 ∧
      maxFilter h w 1
        (fun q => snap1 (minFilter h w 2 (maxFilter h w 2 m) q)) p ≤ 255 ∧
      minFilter h w 1 (maxFilter h w 1
        (fun q => snap1 (minFilter h w 2 (maxFilter h w 2 m) q))) p ≤ 255 ∧
      cleanMask h w m p ≤ 255) := by
  constructor
  · intro radius power alpha0 d
    refine ⟨glowT_nonneg radius d, glowT_le_one radius d, ?_⟩
    unfold glowAlphaPre
    refine le_trans (Nat.floor_mono (min_le_left _ _)) ?_
    norm_num
  · intro h w m hm p
    have h1 : ∀ q, maxFilter h w 2 m q ≤ 255 := maxFilter_le_255 hm
    have h2 : ∀ q, minFilter h w 2 (maxFilter h w 2 m) q ≤ 255 := minFilter_le_255 h1
    have h3 : ∀ q, snap1 (minFilter h w 2 (maxFilter h w 2 m) q) ≤ 255 :=
      fun q => snap1_le_255 _
    have h4 : ∀ q, maxFilter h w 1
        (fun e => snap1 (minFilter h w 2 (maxFilter h w 2 m) e)) q ≤ 255 :=
      maxFilter_le_255 h3
    have h5 : ∀ q, minFilter h w 1 (maxFilter h w 1
        (fun e => snap1 (minFilter h w 2 (maxFilter h w 2 m) e))) q ≤ 255 :=
      minFilter_le_255 h4
    exact ⟨h1 p, h2 p, h3 p, h4 p, h5 p, snap2_le_255 _⟩

/-- Witness for C6: the cleanup stages applied to the 1×1 all-zero mask
stay within [0,255]. -/
theorem clamp_invariant_witness :
    cleanMask 1 1 (fun _ => 0) (0, 0) ≤ 255 :=
  (clamp_invariant.2 1 1 (fun _ => 0) (fun _ => Nat.zero_le 255) (0, 0)).2.2.2.2.2

/-- C9: every pixel value of a mask returned by `clean_mask` is 0, 255,
or lies in [8, 199]: the final snap leaves no value in 1..7 or in
200..254. -/
theorem cleanMask_range (h w : ℕ) (m : ℕ × ℕ → ℕ) (p : ℕ × ℕ) :
    cleanMask h w m p = 0 ∨ cleanMask h w m p = 255 ∨
      (8 ≤ cleanMask h w m p ∧ cleanMask h w m p ≤ 199) := by
  unfold cleanMask
  rw [snap2_eq]
  split_ifs <;> omega

/-- C3: composite correctness.  In the composited icon image, pixels with
cleaned-mask value 0 are fully transparent, pixels with mask value 255
are fully opaque with RGB equal to the configured foreground colour
(255,255,255), and the colour channels are identical at every pixel. -/
theorem composite_correct (h w : ℕ) (arcMask : ℕ × ℕ → ℕ) (p : ℕ × ℕ) :
    (cleanMask h w arcMask p = 0 → (makeForegroundPngSolid h w arcMask p).a = 0) ∧
    (cleanMask h w arcMask p = 255 →
      (makeForegroundPngSolid h w arcMask p).a = 255 ∧
      (makeForegroundPngSolid h w arcMask p).r = 255 ∧
      (makeForegroundPngSolid h w arcMask p).g = 255 ∧
      (makeForegroundPngSolid h w arcMask p).b = 255) ∧
    (∀ q : ℕ × ℕ,
      (makeForegroundPngSolid h w arcMask p).r = (makeForegroundPngSolid h w arcMask q).r ∧
      (makeForegroundPngSolid h w arcMask p).g = (makeForegroundPngSolid h w arcMask q).g ∧
      (makeForegroundPngSolid h w arcMask p).b = (makeForegroundPngSolid h w arcMask q).b) :=
  ⟨fun hm => hm, fun hm => ⟨hm, rfl, rfl, rfl⟩, fun _ => ⟨rfl, rfl, rfl⟩⟩

/-- Witness for C3: on the 1×1 all-zero mask the cleaned mask is 0 at the
only pixel and the composited alpha there is 0. -/
theorem composite_correct_witness :
    (makeForegroundPngSolid 1 1 (fun _ => 0) (0, 0)).a = 0 :=
  (composite_correct 1 1 (fun _ => 0) (0, 0)).1 (by decide)

/-- C10: `fg.putalpha(mask)` replaces the alpha channel wholesale: the
final alpha equals the cleaned mask exactly at every pixel, not only at
mask values 0 and 255. -/
theorem putalpha_exact (h w : ℕ) (arcMask : ℕ × ℕ → ℕ) (p : ℕ × ℕ) :
    (makeForegroundPngSolid h w arcMask p).a = cleanMask h w arcMask p := rfl

/-- Squared Euclidean distance between two points of the plane. -/
def distSq (u v : ℝ × ℝ) : ℝ :=
  (u.1 - v.1) ^ 2 + (u.2 - v.2) ^ 2

open Classical

/-- Modelled from the spec: the rasterized arc mask.  The stroking,
cap-drawing and LANCZOS downsampling are done by PIL library routines
(`ImageDraw.line`, `ImageDraw.ellipse`, `Image.resize`), which are not
part of this repository; following the spec, the rendered mask is 255 at
every point covered by the stroked polyline (`strokeCover`) or by one of
the two filled cap disks of radius `sw / 2` centred at the endpoints
`cubic p0 p1 p2 p3 0` (= `pts[0]`) and `cubic p0 p1 p2 p3 1`
(= `pts[-1]`), and 0 elsewhere. -/
noncomputable def renderedMask (strokeCover : ℝ × ℝ → Prop) (sw : ℝ)
    (p0 p1 p2 p3 : ℝ × ℝ) (q : ℝ × ℝ) : ℕ :=
  if strokeCover q ∨ distSq q (cubic p0 p1 p2 p3 0) ≤ (sw / 2) ^ 2
      ∨ distSq q (cubic p0 p1 p2 p3 1) ≤ (sw / 2) ^ 2
  then 255 else 0

theorem cubic_endpoints (p0 p1 p2 p3 : ℝ × ℝ) :
    cubic p0 p1 p2 p3 0 = p0 ∧ cubic p0 p1 p2 p3 1 = p3 := by
  constructor <;>
    · unfold cubic
      rw [Prod.ext_iff]
      constructor <;> norm_num

/-- C5: the Bezier polyline starts at `B(0) = p0` and ends at
`B(1) = p3`, and the rendered mask is non-zero at every point of the
filled disk of radius `stroke_w / 2` centred at either endpoint (rounded
caps are present at both curve ends). -/
theorem endpoint_caps :
    (∀ p0 p1 p2 p3 : ℝ × ℝ, cubic p0 p1 p2 p3 0 = p0 ∧ cubic p0 p1 p2 p3 1 = p3) ∧
    (∀ (strokeCover : ℝ × ℝ → Prop) (sw : ℝ) (p0 p1 p2 p3 : ℝ × ℝ) (q : ℝ × ℝ),
      distSq q p0 ≤ (sw / 2) ^ 2 ∨ distSq q p3 ≤ (sw / 2) ^ 2 →
      renderedMask strokeCover sw p0 p1 p2 p3 q ≠ 0) := by
  refine ⟨cubic_endpoints, ?_⟩
  intro sc sw p0 p1 p2 p3 q hq
  have h255 : renderedMask sc sw p0 p1 p2 p3 q = 255 := by
    unfold renderedMask
    rw [(cubic_endpoints p0 p1 p2 p3).1, (cubic_endpoints p0 p1 p2 p3).2]
    exact if_pos (Or.inr hq)
  rw [h255]
  norm_num

/-- Witness for C5: with the sample control points of `make_arc_mask`
(`scale = 1`), the point `p0 = (160, 560)` itself lies in the start cap
of a width-54 stroke, so the rendered mask is non-zero there. -/
theorem endpoint_caps_witness :
    renderedMask (fun _ => False) 54 (160, 560) (360, 560) (664, 250) (864, 535)
      (160, 560) ≠ 0 :=
  endpoint_caps.2 (fun _ => False) 54 (160, 560) (360, 560) (664, 250) (864, 535)
    (160, 560) (Or.inl (by unfold distSq; norm_num))

/-- Modelled from the spec: `ImageFilter.GaussianBlur` (a PIL routine,
not part of this repository) acts on each channel independently as a
discrete convolution with a finitely supported kernel of weights that
sum to 1. -/
def blurChannel (kernel : List ((ℤ × ℤ) × ℚ)) (img : ℤ → ℤ → ℚ) (x y : ℤ) : ℚ :=
  (kernel.map fun kv => kv.2 * img (x + kv.1.1) (y + kv.1.2)).sum

theorem sum_map_mul_const (l : List ((ℤ × ℤ) × ℚ)) (c : ℚ) :
    (l.map fun kv => kv.2 * c).sum = (l.map Prod.snd).sum * c := by
  induction l with
  | nil => simp
  | cons hd tl ih => simp [ih, add_mul]

theorem blurChannel_const (kernel : List ((ℤ × ℤ) × ℚ)) (c : ℚ)
    (hk : (kernel.map Prod.snd).sum = 1) (x y : ℤ) :
    blurChannel kernel (fun _ _ => c) x y = c := by
  unfold blurChannel
  rw [sum_map_mul_const, hk, one_mul]

/-- C7: the glow image is `OUT × OUT` RGBA with colour channels constant
white (255,255,255) at every pixel, and after any normalised per-channel
blur the constant colour channels are still 255 everywhere. -/
theorem glow_white_channels :
    (∀ (cx cy radius power alpha0 : ℝ) (x y : ℕ),
      (makeGlowImage cx cy radius power alpha0 x y).r = 255 ∧
      (makeGlowImage cx cy radius power alpha0 x y).g = 255 ∧
      (makeGlowImage cx cy radius power alpha0 x y).b = 255) ∧
    (∀ (kernel : List ((ℤ × ℤ) × ℚ)) (x y : ℤ),
      (kernel.map Prod.snd).sum = 1 →
      blurChannel kernel (fun _ _ => 255) x y = 255) :=
  ⟨fun _ _ _ _ _ _ _ => ⟨rfl, rfl, rfl⟩,
   fun kernel x y hk => blurChannel_const kernel 255 hk x y⟩

/-- Witness for C7: the one-point identity kernel is normalised and
preserves the constant 255 channel. -/
theorem glow_white_channels_witness :
    blurChannel [((0, 0), 1)] (fun _ _ => 255) 0 0 = 255 :=
  glow_white_channels.2 [((0, 0), 1)] 0 0 (by norm_num)

/-- C8: determinism: the pixel content of both renderers is a pure
function of the numeric parameters — two runs with equal parameters
produce identical images, with no dependence on anything outside the
inputs. -/
theorem renderers_deterministic :
    (∀ cx cy radius power alpha0 cx2 cy2 radius2 power2 alpha02 : ℝ,
      cx = cx2 → cy = cy2 → radius = radius2 → power = power2 → alpha0 = alpha02 →
      ∀ x y : ℕ, makeGlowImage cx cy radius power alpha0 x y
        = makeGlowImage cx2 cy2 radius2 power2 alpha02 x y) ∧
    (∀ (h w hb wb : ℕ) (arcMask arcMaskb : ℕ × ℕ → ℕ),
      h = hb → w = wb → arcMask = arcMaskb →
      ∀ p : ℕ × ℕ, makeForegroundPngSolid h w arcMask p
        = makeForegroundPngSolid hb wb arcMaskb p) := by
  constructor
  · intro cx cy radius power alpha0 cx2 cy2 radius2 power2 alpha02 e1 e2 e3 e4 e5 x y
    subst e1; subst e2; subst e3; subst e4; subst e5; rfl
  · intro h w hb wb arcMask arcMaskb e1 e2 e3 p
    subst e1; subst e2; subst e3; rfl

/-- Witness for C8: the glow renderer run twice at the script's
parameters gives the same pixel at the origin. -/
theorem renderers_deterministic_witness :
    makeGlowImage 512 410 280 1.9 185 0 0 = makeGlowImage 512 410 280 1.9 185 0 0 :=
  renderers_deterministic.1 512 410 280 1.9 185 512 410 280 1.9 185
    rfl rfl rfl rfl rfl 0 0

end Heatlab
